import Mathlib

/-!
Verification of the keyword-analysis core of `analyze_keywords.py`
(YouTube trending keywords analyzer).

The embedding models the pure aggregation pipeline of the script:
the stop-word set, the tokenizer `extract_keywords_from_text`, the
aggregator `analyze_videos` (built on `collections.Counter`), the
`most_common` ranking of a counter, the category-name fallback
`get_category_name`, and the post-collection step of `main`.

The Python `Counter` is modelled as an association list in key
insertion order (`incr` inserts a new key at the end, matching dict
insertion-order semantics), and `Counter.most_common` as a stable
sort by descending count followed by `take`.
-/

namespace AnalyzeKeywords

/-- The fixed stop-word set `STOP_WORDS` of the script (a Python `set`
built from a list literal; the duplicate literal entry `"than"` is
harmless there and kept here, membership is what matters). -/
def STOP_WORDS : List String := [
  "the", "a", "an", "and", "or", "but", "in", "on", "at", "to", "for",
  "of", "with", "by", "from", "as", "is", "was", "are", "been", "be",
  "have", "has", "had", "do", "does", "did", "will", "would", "should",
  "could", "may", "might", "must", "can", "this", "that", "these", "those",
  "i", "you", "he", "she", "it", "we", "they", "them", "their", "what",
  "which", "who", "when", "where", "why", "how", "all", "each", "every",
  "both", "few", "more", "most", "other", "some", "such", "no", "not",
  "only", "own", "same", "so", "than", "too", "very", "s", "t", "just",
  "now", "than", "my", "your", "our", "like", "get", "got", "new", "out",
  "up", "down", "over", "after", "before", "into", "through", "during"]

/-- Python regex `\w` on ASCII text: alphanumeric or underscore. -/
def isWordChar (c : Char) : Bool := c.isAlphanum || c = '_'

/-- `re.sub(r'[^\w\s]', ' ', text)`: every character that is neither a
word character nor whitespace becomes a single space. -/
def substNonWord (cs : List Char) : List Char :=
  cs.map (fun c => if isWordChar c || c.isWhitespace then c else ' ')

/-- Python `str.split()` with no argument: split on whitespace runs,
discarding empty pieces.  `acc` holds the current word reversed. -/
def splitWordsAux : List Char → List Char → List String
  | [], acc => if acc.isEmpty then [] else [String.mk acc.reverse]
  | c :: cs, acc =>
    if c.isWhitespace then
      if acc.isEmpty then splitWordsAux cs []
      else String.mk acc.reverse :: splitWordsAux cs []
    else splitWordsAux cs (c :: acc)

def splitWords (cs : List Char) : List String := splitWordsAux cs []

/-- Python `str.lower()` on ASCII text, character by character. -/
def lowerString (s : String) : String := String.mk (s.data.map Char.toLower)

/-- `extract_keywords_from_text(text, min_length=3)`.  The argument is an
`Option String` so that the Python `None` input (checked by
`if not text`) is representable; `none` and `""` both short-circuit
to the empty list. -/
def extract_keywords_from_text (text : Option String) (min_length : Nat := 3) :
    List String :=
  match text with
  | none => []
  | some t =>
    if t = "" then []
    else
      let lowered := t.data.map Char.toLower
      let cleaned := substNonWord lowered
      let words := splitWords cleaned
      words.filter (fun w =>
        decide (min_length ≤ w.length) && !(STOP_WORDS.contains w))

/-- One `Counter` increment `counter[k] += 1` on an insertion-ordered
association list: bump an existing key in place, append a fresh key. -/
def incr (t : List (String × Nat)) (k : String) : List (String × Nat) :=
  match t with
  | [] => [(k, 1)]
  | (k', c) :: rest => if k' = k then (k', c + 1) :: rest else (k', c) :: incr rest k

/-- `Counter(xs)` for a list `xs`: keys appear in first-encounter order. -/
def counterOf (xs : List String) : List (String × Nat) := xs.foldl incr []

/-- `counter[k]` lookup (0 for an absent key, as in `Counter`). -/
def tableCount (t : List (String × Nat)) (k : String) : Nat :=
  match t with
  | [] => 0
  | (k', c) :: rest => if k' = k then c else tableCount rest k

/-- The `snippet` dict of a video record; every field is optional,
mirroring `snippet.get(...)` access with defaults. -/
structure Snippet where
  title : Option String := none
  description : Option String := none
  tags : Option (List String) := none
  categoryId : Option String := none
deriving DecidableEq

/-- A fetched video record; `video.get('snippet', {})` means a record
with no `snippet` key behaves as an all-absent snippet. -/
structure Video where
  snippet : Option Snippet := none
deriving DecidableEq

/-- Keywords contributed by one record: title keywords then description
keywords, each field defaulting to `""` when absent
(`snippet.get('title', '')`, `snippet.get('description', '')`),
tokenized at the default minimum length 3. -/
def recordKeywords (video : Video) : List String :=
  let snippet := video.snippet.getD {}
  extract_keywords_from_text (some (snippet.title.getD "")) 3 ++
    extract_keywords_from_text (some (snippet.description.getD "")) 3

/-- Tags contributed by one record: `snippet.get('tags', [])`, and when
the list is non-empty (`if tags:`) each tag lowercased verbatim. -/
def recordTags (video : Video) : List String :=
  let tags := (video.snippet.getD {}).tags.getD []
  if tags.isEmpty then [] else tags.map lowerString

/-- The category key of one record: `snippet.get('categoryId', 'Unknown')`. -/
def recordCategory (video : Video) : String :=
  (video.snippet.getD {}).categoryId.getD "Unknown"

/-- The body of the `for video in videos` loop of `analyze_videos`,
acting on the accumulator `(all_keywords, all_tags, categories)`. -/
def analyzeStep (acc : List String × List String × List (String × Nat))
    (video : Video) : List String × List String × List (String × Nat) :=
  (acc.1 ++ recordKeywords video,
   acc.2.1 ++ recordTags video,
   incr acc.2.2 (recordCategory video))

/-- `analyze_videos(videos)`: returns
`(keyword_counts, tag_counts, categories)`. -/
def analyze_videos (videos : List Video) :
    List (String × Nat) × List (String × Nat) × List (String × Nat) :=
  let acc := videos.foldl analyzeStep ([], [], [])
  (counterOf acc.1, counterOf acc.2.1, acc.2.2)

/-- Stable descending insertion for `most_common`: the new element goes
in front of the first entry whose count it matches or exceeds. -/
def insertDesc (x : String × Nat) : List (String × Nat) → List (String × Nat)
  | [] => [x]
  | y :: ys => if y.2 ≤ x.2 then x :: y :: ys else y :: insertDesc x ys

/-- Stable sort by descending count; ties keep their input order, which
for a counter is key insertion order.  Models the stable
`sorted(..., key=count, reverse=True)` underlying `Counter.most_common`. -/
def sortByCountDesc : List (String × Nat) → List (String × Nat)
  | [] => []
  | x :: xs => insertDesc x (sortByCountDesc xs)

/-- `counter.most_common(n)`: the first `n` entries of the stable
descending sort. -/
def most_common (n : Nat) (t : List (String × Nat)) : List (String × Nat) :=
  (sortByCountDesc t).take n

/-- The keys of a stream in first-encounter order: the insertion order
of the keys of a `Counter` built from the stream. -/
def firstOccurrences (xs : List String) : List String :=
  xs.foldl (fun acc x => if acc.contains x then acc else acc ++ [x]) []

/-- All keywords contributed by a record list, in stream order
(the `all_keywords` list of the loop). -/
def allKeywords : List Video → List String
  | [] => []
  | v :: vs => recordKeywords v ++ allKeywords vs

/-- All normalized tags contributed by a record list, in stream order
(the `all_tags` list of the loop). -/
def allTags : List Video → List String
  | [] => []
  | v :: vs => recordTags v ++ allTags vs

/-- The raw (not yet lowercased) tag list of one record,
`snippet.get('tags', [])`. -/
def rawTags (video : Video) : List String :=
  (video.snippet.getD {}).tags.getD []

/-- All raw tags of a record list, in stream order. -/
def allRawTags : List Video → List String
  | [] => []
  | v :: vs => rawTags v ++ allRawTags vs

/-- The persisted report assembled at the end of `main` (the fields the
aggregation core supplies; generation timestamp and period label are
constants of the I/O layer and carry no algorithmic content). -/
structure Report where
  total_videos_analyzed : Nat
  top_keywords : List (String × Nat)
  top_tags : List (String × Nat)
  top_categories : List (String × Nat)
deriving DecidableEq

/-- The tail of `main` after video collection, as a pure function of the
collected list: an empty collection aborts with the error message and
produces no report; otherwise `analyze_videos` runs and the report is
assembled from `most_common(50)` keywords and tags and
`most_common(10)` categories. -/
def run_analysis (all_videos : List Video) : Except String Report :=
  if all_videos.isEmpty then
    Except.error "Error: No videos fetched. Please check your API key and quota."
  else
    let r := analyze_videos all_videos
    Except.ok
      { total_videos_analyzed := all_videos.length,
        top_keywords := most_common 50 r.1,
        top_tags := most_common 50 r.2.1,
        top_categories := most_common 10 r.2.2 }

/-- Outcome of the `videoCategories` HTTP lookup as observed by
`get_category_name`: either the request or response parsing raised
(network error or malformed body, swallowed by the bare `except`), or
it produced the `items` array, each item contributing its
`snippet.title` display name. -/
inductive CategoryLookup where
  | failure : CategoryLookup
  | items : List String → CategoryLookup
deriving DecidableEq

/-- `get_category_name(category_id, api_key)`, with the network exchange
abstracted into the `lookup` outcome: a non-empty `items` array yields
the first display name, everything else falls back to the synthesized
label `Category <id>`. -/
def get_category_name (category_id : String) (lookup : CategoryLookup) : String :=
  match lookup with
  | CategoryLookup.items (title :: _) => title
  | CategoryLookup.items [] => "Category " ++ category_id
  | CategoryLookup.failure => "Category " ++ category_id

/-- Record 1 of the end-to-end scenario (description absent). -/
def record1 : Video :=
  ⟨some { title := some "Amazing New Trick Revealed",
          tags := some ["funny", "funny"], categoryId := some "10" }⟩

/-- Record 2 of the end-to-end scenario (description absent). -/
def record2 : Video :=
  ⟨some { title := some "Amazing Trick Tutorial",
          tags := some ["Funny"], categoryId := some "10" }⟩

end AnalyzeKeywords

namespace AnalyzeKeywords

theorem tableCount_incr (t : List (String × Nat)) (j k : String) :
    tableCount (incr t j) k = tableCount t k + (if j = k then 1 else 0) := by
  induction t with
  | nil => by_cases h : j = k <;> simp [incr, tableCount, h]
  | cons p rest ih =>
    obtain ⟨k', c⟩ := p
    by_cases h1 : k' = j
    · subst h1
      by_cases h2 : k' = k <;> simp [incr, tableCount, h2]
    · by_cases h2 : k' = k
      · subst h2
        have hj : ¬(j = k') := fun h => h1 h.symm
        simp [incr, h1, tableCount, hj]
      · simp [incr, h1, tableCount, h2, ih]

theorem tableCount_foldl_incr (xs : List String) (t : List (String × Nat)) (k : String) :
    tableCount (xs.foldl incr t) k = tableCount t k + xs.count k := by
  induction xs generalizing t with
  | nil => simp
  | cons x xs ih =>
    rw [List.foldl_cons, ih, tableCount_incr, List.count_cons]
    by_cases h : x = k
    · simp [h]
      omega
    · simp [h, Ne.symm h]

theorem tableCount_counterOf (xs : List String) (k : String) :
    tableCount (counterOf xs) k = xs.count k := by
  simpa [counterOf, tableCount] using tableCount_foldl_incr xs [] k

theorem foldl_analyzeStep (l : List Video) (a b : List String) (c : List (String × Nat)) :
    l.foldl analyzeStep (a, b, c) =
      (a ++ allKeywords l, b ++ allTags l, (l.map recordCategory).foldl incr c) := by
  induction l generalizing a b c with
  | nil => simp [allKeywords, allTags]
  | cons v vs ih =>
    simp [List.foldl_cons, analyzeStep, allKeywords, allTags, ih, List.append_assoc]

theorem analyze_videos_eq (l : List Video) :
    analyze_videos l =
      (counterOf (allKeywords l), counterOf (allTags l),
        counterOf (l.map recordCategory)) := by
  simp [analyze_videos, foldl_analyzeStep, counterOf]

theorem allKeywords_append (l1 l2 : List Video) :
    allKeywords (l1 ++ l2) = allKeywords l1 ++ allKeywords l2 := by
  induction l1 with
  | nil => simp [allKeywords]
  | cons v vs ih => simp [allKeywords, ih]

theorem allTags_append (l1 l2 : List Video) :
    allTags (l1 ++ l2) = allTags l1 ++ allTags l2 := by
  induction l1 with
  | nil => simp [allTags]
  | cons v vs ih => simp [allTags, ih]



theorem mem_insertDesc {z x : String × Nat} {l : List (String × Nat)} :
    z ∈ insertDesc x l ↔ z = x ∨ z ∈ l := by
  induction l with
  | nil => simp [insertDesc]
  | cons y ys ih =>
    by_cases h : y.2 ≤ x.2
    · simp [insertDesc, h]
    · simp only [insertDesc, if_neg h, List.mem_cons, ih]
      tauto

theorem pairwise_insertDesc (x : String × Nat) (l : List (String × Nat))
    (h : l.Pairwise (fun p q => q.2 ≤ p.2)) :
    (insertDesc x l).Pairwise (fun p q => q.2 ≤ p.2) := by
  induction l with
  | nil => simp [insertDesc]
  | cons y ys ih =>
    rw [List.pairwise_cons] at h
    obtain ⟨hy, hys⟩ := h
    by_cases hle : y.2 ≤ x.2
    · simp only [insertDesc, if_pos hle]
      refine List.Pairwise.cons ?_ (List.Pairwise.cons hy hys)
      intro z hz
      rcases List.mem_cons.mp hz with rfl | hz
      · exact hle
      · exact le_trans (hy z hz) hle
    · simp only [insertDesc, if_neg hle]
      refine List.Pairwise.cons ?_ (ih hys)
      intro z hz
      rcases mem_insertDesc.mp hz with rfl | hz
      · exact le_of_not_le hle
      · exact hy z hz

theorem pairwise_sortByCountDesc (l : List (String × Nat)) :
    (sortByCountDesc l).Pairwise (fun p q => q.2 ≤ p.2) := by
  induction l with
  | nil => simp [sortByCountDesc]
  | cons x xs ih => exact pairwise_insertDesc x _ ih

theorem filter_insertDesc (x : String × Nat) (l : List (String × Nat)) (c : Nat) :
    (insertDesc x l).filter (fun q => q.2 == c) =
      if x.2 = c then x :: l.filter (fun q => q.2 == c)
      else l.filter (fun q => q.2 == c) := by
  induction l with
  | nil => by_cases h : x.2 = c <;> simp [insertDesc, h]
  | cons y ys ih =>
    by_cases hle : y.2 ≤ x.2
    · simp only [insertDesc]
      rw [if_pos hle]
      by_cases hx : x.2 = c <;> simp [List.filter_cons, hx]
    · simp only [insertDesc]
      rw [if_neg hle]
      by_cases hy : y.2 = c
      · have hx : ¬(x.2 = c) := fun hx => hle (by omega)
        simp [List.filter_cons, hy, hx, ih]
      · by_cases hx : x.2 = c <;> simp [List.filter_cons, hy, hx, ih]

theorem filter_sortByCountDesc (l : List (String × Nat)) (c : Nat) :
    (sortByCountDesc l).filter (fun q => q.2 == c) = l.filter (fun q => q.2 == c) := by
  induction l with
  | nil => rfl
  | cons x xs ih =>
    simp only [sortByCountDesc]
    rw [filter_insertDesc]
    by_cases hx : x.2 = c <;> simp [List.filter_cons, hx, ih]

theorem sublist_sort_of_eq_counts (t : List (String × Nat)) (a b : String) (c : Nat)
    (h : List.Sublist [(a, c), (b, c)] t) :
    List.Sublist [(a, c), (b, c)] (sortByCountDesc t) := by
  have h1 : List.Sublist [(a, c), (b, c)] (t.filter (fun q => q.2 == c)) := by
    have h2 := h.filter (fun q => q.2 == c)
    simpa using h2
  rw [← filter_sortByCountDesc] at h1
  exact h1.trans (List.filter_sublist _)

theorem map_fst_incr (t : List (String × Nat)) (k : String) :
    (incr t k).map Prod.fst =
      if (t.map Prod.fst).contains k then t.map Prod.fst
      else t.map Prod.fst ++ [k] := by
  induction t with
  | nil => simp [incr]
  | cons p rest ih =>
    obtain ⟨k', c⟩ := p
    by_cases h : k' = k
    · simp [incr, h, List.contains_cons]
    · have hbeq : (k == k') = false := by simp [Ne.symm h]
      simp only [incr, if_neg h, List.map_cons, List.contains_cons, hbeq, Bool.false_or, ih]
      by_cases hc : (rest.map Prod.fst).contains k = true
      · rw [if_pos hc, if_pos hc]
      · rw [if_neg hc, if_neg hc, List.cons_append]

theorem map_fst_foldl_incr (xs : List String) (t : List (String × Nat)) :
    ((xs.foldl incr t).map Prod.fst) =
      xs.foldl (fun acc x => if acc.contains x then acc else acc ++ [x])
        (t.map Prod.fst) := by
  induction xs generalizing t with
  | nil => rfl
  | cons x xs ih =>
    rw [List.foldl_cons, List.foldl_cons, ih, map_fst_incr]

theorem map_fst_counterOf (xs : List String) :
    (counterOf xs).map Prod.fst = firstOccurrences xs := by
  simpa [counterOf, firstOccurrences] using map_fst_foldl_incr xs []

theorem nodup_foldl_firstOcc (xs : List String) (acc : List String) (h : acc.Nodup) :
    (xs.foldl (fun acc x => if acc.contains x then acc else acc ++ [x]) acc).Nodup := by
  induction xs generalizing acc with
  | nil => exact h
  | cons x xs ih =>
    rw [List.foldl_cons]
    by_cases hc : acc.contains x = true
    · rw [if_pos hc]
      exact ih acc h
    · rw [if_neg hc]
      refine ih _ ?_
      have hx : x ∉ acc := by simpa using (Bool.of_not_eq_true hc : acc.contains x = false)
      simp [List.nodup_append, h, hx]

theorem nodup_firstOccurrences (xs : List String) : (firstOccurrences xs).Nodup :=
  nodup_foldl_firstOcc xs [] List.nodup_nil

theorem sublist_pairs_of_sublist_keys (t : List (String × Nat)) (ks : List String)
    (hks : List.Sublist ks (t.map Prod.fst)) (hnd : (t.map Prod.fst).Nodup) :
    List.Sublist (ks.map (fun k => (k, tableCount t k))) t := by
  induction t generalizing ks with
  | nil =>
    have hnil : ks = [] := List.sublist_nil.mp (by simpa using hks)
    subst hnil
    simp
  | cons p t' ih =>
    obtain ⟨k0, c0⟩ := p
    rw [List.map_cons] at hks hnd
    obtain ⟨hk0, hnd'⟩ := List.nodup_cons.mp hnd
    rcases List.sublist_cons_iff.mp hks with h' | ⟨ks', rfl, h'⟩
    · have hcong : ks.map (fun k => (k, tableCount ((k0, c0) :: t') k)) =
          ks.map (fun k => (k, tableCount t' k)) := by
        refine List.map_congr_left ?_
        intro k hk
        have hkmem : k ∈ t'.map Prod.fst := h'.subset hk
        have hne : ¬(k0 = k) := fun he => hk0 (he ▸ hkmem)
        simp [tableCount, hne]
      rw [hcong]
      exact (ih ks h' hnd').cons _
    · have hc0 : tableCount ((k0, c0) :: t') k0 = c0 := by simp [tableCount]
      rw [List.map_cons, hc0]
      have htail : ks'.map (fun k => (k, tableCount ((k0, c0) :: t') k)) =
          ks'.map (fun k => (k, tableCount t' k)) := by
        refine List.map_congr_left ?_
        intro k hk
        have hkmem : k ∈ t'.map Prod.fst := h'.subset hk
        have hne : ¬(k0 = k) := fun he => hk0 (he ▸ hkmem)
        simp [tableCount, hne]
      rw [htail]
      exact (ih ks' h' hnd').cons₂ _

theorem recordTags_eq (v : Video) : recordTags v = (rawTags v).map lowerString := by
  unfold recordTags rawTags
  cases (v.snippet.getD {}).tags.getD [] with
  | nil => rfl
  | cons t ts => rfl

theorem allTags_eq (l : List Video) : allTags l = (allRawTags l).map lowerString := by
  induction l with
  | nil => rfl
  | cons v vs ih => simp [allTags, allRawTags, recordTags_eq, ih]

theorem count_map_eq_countP (f : String → String) (ys : List String) (k : String) :
    (ys.map f).count k = ys.countP (fun y => f y == k) := by
  induction ys with
  | nil => rfl
  | cons y ys ih =>
    by_cases h : f y = k
    · simp [List.count_cons, List.countP_cons, ih, h]
    · simp [List.count_cons, List.countP_cons, ih, h, Ne.symm h]
/-- C1: on the two-record end-to-end scenario (titles as given, tags
`["funny","funny"]` and `["Funny"]`, category `"10"`, descriptions
absent), `analyze_videos` returns exactly the keyword counts
amazing 2, trick 2, revealed 1, tutorial 1 (with the stop word `new`
absent), the tag counts funny 3, and the category counts `"10"` 2. -/
theorem ak_end_to_end_two_records :
    analyze_videos [record1, record2]
        = ([("amazing", 2), ("trick", 2), ("revealed", 1), ("tutorial", 1)],
           [("funny", 3)], [("10", 2)])
    ∧ tableCount (analyze_videos [record1, record2]).1 "new" = 0 :=
  ⟨rfl, rfl⟩

/-- C2: every token produced by `extract_keywords_from_text` has length
at least the minimum and is not a stop word, and tokenizing `None` or
the empty string yields the empty sequence. -/
theorem ak_tokenizer_min_length_and_stopwords (text : Option String) (min_length : Nat)
    (w : String) (hw : w ∈ extract_keywords_from_text text min_length) :
    (min_length ≤ w.length ∧ w ∉ STOP_WORDS)
    ∧ extract_keywords_from_text none min_length = []
    ∧ extract_keywords_from_text (some "") min_length = [] := by
  refine ⟨?_, rfl, by simp [extract_keywords_from_text]⟩
  cases text with
  | none => cases hw
  | some t =>
    simp only [extract_keywords_from_text] at hw
    by_cases ht : t = ""
    · rw [if_pos ht] at hw
      cases hw
    · rw [if_neg ht] at hw
      obtain ⟨-, hp⟩ := List.mem_filter.mp hw
      simp only [Bool.and_eq_true, decide_eq_true_eq, Bool.not_eq_true'] at hp
      exact ⟨hp.1, by simpa using hp.2⟩

theorem ak_tokenizer_min_length_and_stopwords_witness :
    (3 ≤ String.length "hello" ∧ "hello" ∉ STOP_WORDS)
    ∧ extract_keywords_from_text none 3 = []
    ∧ extract_keywords_from_text (some "") 3 = [] :=
  ak_tokenizer_min_length_and_stopwords (some "hello world") 3 "hello" (by decide)

/-- C3: `most_common` on a counter is sorted by descending count, and
keys with equal counts appear in first-encounter order of the input
stream: if `a` is encountered before `b` and both end with count `c`,
the pair survives in that order in the ranked output. -/
theorem ak_most_common_sorted_stable (xs : List String) (n : Nat) (a b : String) (c : Nat)
    (hab : List.Sublist [a, b] (firstOccurrences xs))
    (ha : tableCount (counterOf xs) a = c) (hb : tableCount (counterOf xs) b = c) :
    (most_common n (counterOf xs)).Pairwise (fun p q => q.2 ≤ p.2)
    ∧ List.Sublist [(a, c), (b, c)] (sortByCountDesc (counterOf xs))
    ∧ most_common n (counterOf xs) = (sortByCountDesc (counterOf xs)).take n := by
  refine ⟨(pairwise_sortByCountDesc _).sublist (List.take_sublist n _), ?_, rfl⟩
  have hk : List.Sublist [a, b] ((counterOf xs).map Prod.fst) := by
    rw [map_fst_counterOf]
    exact hab
  have hnd : ((counterOf xs).map Prod.fst).Nodup := by
    rw [map_fst_counterOf]
    exact nodup_firstOccurrences xs
  have hp := sublist_pairs_of_sublist_keys (counterOf xs) [a, b] hk hnd
  rw [List.map_cons, List.map_cons, List.map_nil, ha, hb] at hp
  exact sublist_sort_of_eq_counts _ a b c hp

theorem ak_most_common_sorted_stable_witness :
    (most_common 2 (counterOf ["apple", "pear"])).Pairwise (fun p q => q.2 ≤ p.2)
    ∧ List.Sublist [("apple", 1), ("pear", 1)] (sortByCountDesc (counterOf ["apple", "pear"]))
    ∧ most_common 2 (counterOf ["apple", "pear"])
        = (sortByCountDesc (counterOf ["apple", "pear"])).take 2 :=
  ak_most_common_sorted_stable ["apple", "pear"] 2 "apple" "pear" 1
    (by decide) (by decide) (by decide)

/-- C4: aggregation is a mergeable reduction: aggregating a
concatenation of two batches gives, per key, the sum of the per-batch
counts, for each of the three frequency tables. -/
theorem ak_analyze_videos_mergeable (l1 l2 : List Video) (k : String) :
    tableCount (analyze_videos (l1 ++ l2)).1 k
        = tableCount (analyze_videos l1).1 k + tableCount (analyze_videos l2).1 k
    ∧ tableCount (analyze_videos (l1 ++ l2)).2.1 k
        = tableCount (analyze_videos l1).2.1 k + tableCount (analyze_videos l2).2.1 k
    ∧ tableCount (analyze_videos (l1 ++ l2)).2.2 k
        = tableCount (analyze_videos l1).2.2 k + tableCount (analyze_videos l2).2.2 k := by
  simp [analyze_videos_eq, tableCount_counterOf, allKeywords_append, allTags_append,
    List.count_append]

/-- C5: tag aggregation lowercases only: the count of key `k` in the tag
table is the number of raw tags whose lowercasing is `k` (so `Funny`
and `funny` merge into `funny`), with no length or stop-word filtering,
as the concrete table for tags `["Funny", "funny", "the", "hi"]`
shows. -/
theorem ak_tag_lowercase_only (l : List Video) (k : String) :
    tableCount (analyze_videos l).2.1 k
        = (allRawTags l).countP (fun tag => lowerString tag == k)
    ∧ (analyze_videos [⟨some { tags := some ["Funny", "funny", "the", "hi"] }⟩]).2.1
        = [("funny", 2), ("the", 1), ("hi", 1)] := by
  constructor
  · rw [analyze_videos_eq]
    show tableCount (counterOf (allTags l)) k = _
    rw [tableCount_counterOf, allTags_eq, count_map_eq_countP]
  · rfl

/-- C6: the tokenizer lowercases, turns punctuation into word
boundaries and splits on whitespace runs, so hyphenated and
apostrophized words split apart, with order preserved and duplicates
retained. -/
theorem ak_tokenizer_punctuation_boundaries :
    extract_keywords_from_text (some "well-known") 3 = ["well", "known"]
    ∧ extract_keywords_from_text (some "it\x27s") 3 = []
    ∧ extract_keywords_from_text (some "It\x27s a well-known trick") 3
        = ["well", "known", "trick"]
    ∧ extract_keywords_from_text (some "Hello, world! hello") 3
        = ["hello", "world", "hello"] :=
  ⟨rfl, rfl, rfl, rfl⟩

/-- C7: partially-missing fields never raise and get defaults: an
absent title or description behaves as empty text, absent tags as the
empty tag list, an absent category id as the sentinel `"Unknown"`
(which then ranks like any other key), and an absent snippet as the
all-absent snippet. -/
theorem ak_missing_fields_defaults (s : Snippet) (l : List Video) :
    analyze_videos (⟨some { s with title := none }⟩ :: l)
        = analyze_videos (⟨some { s with title := some "" }⟩ :: l)
    ∧ analyze_videos (⟨some { s with description := none }⟩ :: l)
        = analyze_videos (⟨some { s with description := some "" }⟩ :: l)
    ∧ analyze_videos (⟨some { s with tags := none }⟩ :: l)
        = analyze_videos (⟨some { s with tags := some [] }⟩ :: l)
    ∧ analyze_videos (⟨some { s with categoryId := none }⟩ :: l)
        = analyze_videos (⟨some { s with categoryId := some "Unknown" }⟩ :: l)
    ∧ analyze_videos (⟨none⟩ :: l) = analyze_videos (⟨some {}⟩ :: l) :=
  ⟨rfl, rfl, rfl, rfl, rfl⟩

/-- C8: an empty collected record list is fatal: the run surfaces the
no-data error and produces no report. -/
theorem ak_empty_collection_fatal :
    run_analysis []
      = Except.error "Error: No videos fetched. Please check your API key and quota." :=
  rfl

/-- C9: category name resolution returns the looked-up display name on
success and the synthesized label `Category <id>` on lookup failure or
an empty result, never raising. -/
theorem ak_category_name_fallback (category_id title : String) (rest : List String) :
    get_category_name category_id CategoryLookup.failure = "Category " ++ category_id
    ∧ get_category_name category_id (CategoryLookup.items []) = "Category " ++ category_id
    ∧ get_category_name category_id (CategoryLookup.items (title :: rest)) = title :=
  ⟨rfl, rfl, rfl⟩

/-- C10: a list of `n` records with no snippet at all yields an empty
keyword table, an empty tag table, and a category table counting `n`
for the sentinel `"Unknown"` and `0` for every other key. -/
theorem ak_no_snippet_records (n : Nat) (k : String) :
    (analyze_videos (List.replicate n ⟨none⟩)).1 = []
    ∧ (analyze_videos (List.replicate n ⟨none⟩)).2.1 = []
    ∧ tableCount (analyze_videos (List.replicate n ⟨none⟩)).2.2 k
        = if k = "Unknown" then n else 0 := by
  have hkw : ∀ m : Nat, allKeywords (List.replicate m (⟨none⟩ : Video)) = [] := by
    intro m
    induction m with
    | zero => rfl
    | succ m ih =>
      have hrec : recordKeywords (⟨none⟩ : Video) = [] := rfl
      simp [List.replicate_succ, allKeywords, hrec, ih]
  have htg : ∀ m : Nat, allTags (List.replicate m (⟨none⟩ : Video)) = [] := by
    intro m
    induction m with
    | zero => rfl
    | succ m ih =>
      have hrec : recordTags (⟨none⟩ : Video) = [] := rfl
      simp [List.replicate_succ, allTags, hrec, ih]
  refine ⟨?_, ?_, ?_⟩
  · rw [analyze_videos_eq]
    show counterOf (allKeywords (List.replicate n ⟨none⟩)) = []
    rw [hkw]
    rfl
  · rw [analyze_videos_eq]
    show counterOf (allTags (List.replicate n ⟨none⟩)) = []
    rw [htg]
    rfl
  · rw [analyze_videos_eq]
    show tableCount (counterOf ((List.replicate n (⟨none⟩ : Video)).map recordCategory)) k = _
    rw [List.map_replicate]
    show tableCount (counterOf (List.replicate n "Unknown")) k = _
    rw [tableCount_counterOf, List.count_replicate]
    by_cases h : k = "Unknown"
    · simp [h]
    · have h2 : ¬("Unknown" = k) := fun he => h he.symm
      simp [h, h2]

end AnalyzeKeywords
